import Mathlib

/-!
# Verification of the pgoptionfiles tracer core (pgoptionfiles.c)

A shallow embedding of the core of `pgoptionfiles.c`:

* `pgoptionfiles_copy_from_tracee` — the word-at-a-time remote string reader
  (`PTRACE_PEEKDATA` loop).  Tracee memory is modelled as a word-read function
  `peek : Nat → Option Nat`; `none` models a failing `ptrace` read
  (`errno != 0`).  Addresses are natural numbers, the null pointer is `0`.
* `tracer_entry_step` — the body of the syscall-entry handling (lines 302-354
  of the C source): syscall decoding, register-slot selection, the
  `"Error: "` channel, the `my.cnf` filter, the register patch in
  suppressed-read mode, the duplicate check and the capacity check.
* `tracer_loop` / `pgoptionfiles_tracer` — the monitor loop (lines 253-374),
  driven by a list of externally observed wait results, followed by the
  delimiter-normalization pass (lines 357-372).

Conventions of the embedding:

* C strings are modelled as `List Char` of their bytes before the terminating
  null; the bytes stored by the copy routine are never null, so lengths of
  these lists coincide with `strlen`.
* The state carries observation traces (`kills`, `setregs`, `appended`,
  `matched`) recording the side effects of the run (signals sent with
  `kill()`, register snapshots committed with `PTRACE_SETREGS`, paths appended
  to the list, paths that passed the filename filter).  They are ghost
  history, not data of the C program.
* Machine registers are 64-bit; the register patch wraps modulo `2 ^ 64`.
-/

namespace Pgoptionfiles

/-- Syscall numbers monitored by the tracer (x86_64), lines 238-242. -/
def SYSCALL_OPEN : Nat := 2

def SYSCALL_STAT : Nat := 4

def SYSCALL_LSTAT : Nat := 6

def SYSCALL_ACCESS : Nat := 21

def SYSCALL_OPENAT : Nat := 257

/-- Signal numbers on Linux x86_64. -/
def SIGKILL : Nat := 9

def SIGSTOP : Nat := 19

/-- `WIFEXITED(status)` as implemented by glibc: `(status & 0x7f) == 0`. -/
def WIFEXITED (status : Nat) : Bool := status % 128 = 0

/-- `WIFSTOPPED(status)`: `(status & 0xff) == 0x7f`. -/
def WIFSTOPPED (status : Nat) : Bool := status % 256 = 127

/-- `WSTOPSIG(status)`: `(status >> 8) & 0xff`. -/
def WSTOPSIG (status : Nat) : Nat := status / 256 % 256

/-- The relevant part of `struct user_regs_struct` (x86_64). -/
structure user_regs_struct where
  orig_rax : Nat
  rdi : Nat
  rsi : Nat
deriving DecidableEq

/-- Registers are 64 bits wide. -/
def WORD64 : Nat := 2 ^ 64

/-- `sizeof(size_t)` on x86_64: `PTRACE_PEEKDATA` reads 8-byte words. -/
def SIZEOF_WORD : Nat := 8

/-- The null byte. -/
def NUL : Char := Char.ofNat 0

/-- Byte `k` of a little-endian word value. -/
def wordByte (w k : Nat) : Char := Char.ofNat (w / 256 ^ k % 256)

/-- The bytes of one word, in memory order (little-endian x86_64). -/
def wordBytes (w : Nat) : List Char := (List.range SIZEOF_WORD).map (wordByte w)

/-- Inner byte scan of `pgoptionfiles_copy_from_tracee` (lines 400-407): walk
the bytes of one word; force a null once `dest_offset >= PATH_MAX - 1`; stop
at a null, otherwise store the byte.  Returns the new accumulated bytes and
whether a (possibly forced) null byte was reached. -/
def scanWord (pathMax : Nat) : List Char → List Char → List Char × Bool
  | [], acc => (acc, false)
  | c :: rest, acc =>
    if pathMax - 1 ≤ acc.length then (acc, true)
    else if c = NUL then (acc, true)
    else scanWord pathMax rest (acc ++ [c])

/-- Outer word loop of `pgoptionfiles_copy_from_tracee` (lines 390-409).
`fuel` bounds the number of word reads; since every non-final word stores at
least one byte and at most `pathMax - 1` bytes are ever stored, fuel
`pathMax` is enough for every run that the C loop finishes.  Returns the
accumulated bytes and the number of `PTRACE_PEEKDATA` calls performed. -/
def copyAux (pathMax : Nat) (peek : Nat → Option Nat) (src : Nat) :
    Nat → Nat → List Char → Nat → List Char × Nat
  | 0, _, acc, reads => (acc, reads)
  | fuel + 1, wordNumber, acc, reads =>
    match peek (src + SIZEOF_WORD * wordNumber) with
    | none => (acc, reads + 1)
    | some w =>
      match scanWord pathMax (wordBytes w) acc with
      | (acc2, true) => (acc2, reads + 1)
      | (acc2, false) => copyAux pathMax peek src fuel (wordNumber + 1) acc2 (reads + 1)

/-- `pgoptionfiles_copy_from_tracee` (lines 386-412): copy the remote
null-terminated string at `src` out of the tracee.  Returns the bytes written
into `dest` before the final null terminator (so the returned length
`(…).1.length` is the C return value `dest_offset`) together with the number
of remote word reads performed.  A null `src` returns immediately. -/
def pgoptionfiles_copy_from_tracee (pathMax : Nat) (peek : Nat → Option Nat) (src : Nat) :
    List Char × Nat :=
  if src = 0 then ([], 0)
  else copyAux pathMax peek src pathMax 0 [] 0

/-- The `"Error: "` sentinel marker of the tracee-to-tracer error channel. -/
def errorMarker : List Char := "Error: ".toList

/-- The fixed filename substring identifying an option file (line 334). -/
def myCnf : List Char := "my.cnf".toList

/-- `strncmp(a, b, n) == 0` for null-free byte lists. -/
def strncmpEq (a b : List Char) (n : Nat) : Bool := a.take n = b.take n

/-- `needle` occurs at the very start of `hay`. -/
def leadMatch (needle hay : List Char) : Bool := needle = hay.take needle.length

/-- `strstr(hay, needle) != NULL` for null-free byte lists. -/
def substr (needle : List Char) : List Char → Bool
  | [] => leadMatch needle []
  | c :: rest => leadMatch needle (c :: rest) || substr needle rest

/-- One lowercase hexadecimal digit, as printed by `%x`. -/
def hexDigitChar (n : Nat) : Char :=
  if n < 10 then Char.ofNat (48 + n) else Char.ofNat (97 + (n - 10))

/-- Hexadecimal digits of a positive number, most significant first. -/
def hexAux : Nat → Nat → List Char
  | 0, _ => []
  | _ + 1, 0 => []
  | fuel + 1, n + 1 => hexAux fuel ((n + 1) / 16) ++ [hexDigitChar ((n + 1) % 16)]

/-- `sprintf("%x", n)` for a nonnegative value. -/
def hexStr (n : Nat) : List Char := if n = 0 then ['0'] else hexAux n n

/-- Build-time configuration of pgoptionfiles (see §6 of the design:
delimiter, suppressed-vs-real read mode, output buffer size, maximum path
length).  `readMode = true` models `PGOPTIONFILES_READ == 1`. -/
structure Config where
  delimiter : Char
  maxListSize : Nat
  pathMax : Nat
  readMode : Bool

/-- What the tracer can observe about the stopped tracee at one syscall-entry
stop: the register snapshot (read with `PTRACE_GETREGS`) and the tracee's
memory (read word-wise with `PTRACE_PEEKDATA`). -/
structure EntryEvent where
  regs : user_regs_struct
  peek : Nat → Option Nat

/-- The outcome of one `waitpid` call, as observed by the tracer.
`waitFail` is `waitpid` returning a negative value. -/
inductive WaitOutcome where
  | waitFail
  | wait (status : Nat) (ev : EntryEvent)

/-- The externally observed input of one iteration of the tracer loop:
whether the `ptrace(PTRACE_SYSCALL, …)` resume succeeded (ignored on
iteration 0, which performs no resume), and the `waitpid` outcome. -/
structure IterInput where
  resumeOk : Bool
  outcome : WaitOutcome

/-- The tracer's mutable state, plus ghost observation traces.
`file_names_list` and `error_list` are the two C output buffers,
`retcode` the tracer's return code, `status` the C `status` variable
(initially `0`).  `kills` records signals sent to the tracee, `setregs` the
register snapshots committed with `PTRACE_SETREGS`, `appended` the paths
appended to `file_names_list` (in order), `matched` the paths that passed the
`my.cnf` filter (in order). -/
structure TracerState where
  file_names_list : List Char
  error_list : List Char
  retcode : Int
  status : Nat
  kills : List Nat
  setregs : List user_regs_struct
  appended : List (List Char)
  matched : List (List Char)
deriving DecidableEq

/-- Lines 312-324: the remote address of the path argument, if the syscall is
one of the five monitored ones — `rsi` (`entry.args[1]`) for `openat`,
`rdi` (`entry.args[0]`) for the other four; `none` otherwise. -/
def syscall_path_addr (r : user_regs_struct) : Option Nat :=
  if r.orig_rax = SYSCALL_OPENAT ∨ r.orig_rax = SYSCALL_ACCESS ∨ r.orig_rax = SYSCALL_STAT
      ∨ r.orig_rax = SYSCALL_OPEN ∨ r.orig_rax = SYSCALL_LSTAT then
    some (if r.orig_rax = SYSCALL_OPENAT then r.rsi else r.rdi)
  else none

/-- Lines 338-344: add `len` to the path-argument register slot of the
snapshot (the slot chosen as in `syscall_path_addr`), wrapping at 64 bits. -/
def patch_regs (r : user_regs_struct) (len : Nat) : user_regs_struct :=
  if r.orig_rax = SYSCALL_OPENAT then { r with rsi := (r.rsi + len) % WORD64 }
  else { r with rdi := (r.rdi + len) % WORD64 }

/-- A path as it is placed into `file_names_list`: one delimiter on each side
(lines 318-319 and 347-348). -/
def entryOf (d : Char) (p : List Char) : List Char := d :: p ++ [d]

/-- Lines 302-354: handling of one syscall-entry stop.  Returns the new state
and whether the loop `break`s.  Mirrors the C control flow: syscall decode,
remote copy (into `file_name + 1`, after the leading delimiter), the
`"Error: "` check, the `my.cnf` filter, the register patch when
`PGOPTIONFILES_READ == 0`, the duplicate check (`strstr` on the whole list)
and the capacity check. -/
def tracer_entry_step (cfg : Config) (s : TracerState) (ev : EntryEvent) :
    TracerState × Bool :=
  match syscall_path_addr ev.regs with
  | none => (s, false)
  | some addr =>
    let dest := (pgoptionfiles_copy_from_tracee cfg.pathMax ev.peek addr).1
    if dest.length = 0 then (s, false)
    else if strncmpEq dest errorMarker errorMarker.length then
      ({ s with error_list := s.error_list ++ dest, retcode := -6 }, true)
    else
      let file_name1 := cfg.delimiter :: dest
      if substr myCnf file_name1 = false then (s, false)
      else
        let file_name_length := file_name1.length
        let s1 := if cfg.readMode then s
          else { s with setregs := s.setregs ++ [patch_regs ev.regs file_name_length] }
        let s2 := { s1 with matched := s1.matched ++ [dest] }
        let fullEntry := file_name1 ++ [cfg.delimiter]
        if substr fullEntry s.file_names_list then (s2, false)
        else if cfg.maxListSize ≤ s.file_names_list.length + fullEntry.length then (s2, true)
        else ({ s2 with file_names_list := s.file_names_list ++ fullEntry,
                        appended := s.appended ++ [dest] }, false)

/-- The error text of line 288. -/
def waitpidFailedMsg : List Char := "Error: waitpid failed.".toList

/-- The error text of line 296: `sprintf("Error: waitpid status: %x.", status)`. -/
def waitStatusMsg (status : Nat) : List Char :=
  "Error: waitpid status: ".toList ++ hexStr status ++ ".".toList

/-- The outcome of one loop iteration: `brk` ends the loop with this state,
`cont` goes on to the next iteration. -/
inductive StepOut where
  | brk (s : TracerState)
  | cont (s : TracerState)

/-- The state carried by a `StepOut`. -/
def StepOut.state : StepOut → TracerState
  | .brk s => s
  | .cont s => s

/-- One iteration of the tracer loop (lines 255-355) at `trace_number = n`:
the resume (`ptrace(PTRACE_SYSCALL)`, skipped on iteration 0), the `waitpid`
outcome, the `WIFEXITED` check, the initial-stop protocol check on iteration
0, the syscall-entry handling on odd iterations, and the no-op on even
(syscall-exit) iterations. -/
def tracer_iter (cfg : Config) (s : TracerState) (n : Nat) (inp : IterInput) : StepOut :=
  if n ≠ 0 ∧ inp.resumeOk = false then .brk { s with retcode := -1 }
  else
    match inp.outcome with
    | .waitFail =>
      if WIFEXITED s.status then .brk { s with retcode := 0 }
      else .brk { s with error_list := s.error_list ++ waitpidFailedMsg, retcode := -2 }
    | .wait status ev =>
      if WIFEXITED status then .brk { s with status := status, retcode := 0 }
      else if n = 0 then
        if WIFSTOPPED status ∧ WSTOPSIG status = SIGSTOP then .cont { s with status := status }
        else
          .brk { s with
                 status := status, kills := s.kills ++ [SIGKILL],
                 error_list := s.error_list ++ waitStatusMsg status, retcode := -3 }
      else if n % 2 = 1 then
        let r := tracer_entry_step cfg { s with status := status } ev
        if r.2 then .brk r.1 else .cont r.1
      else .cont { s with status := status }

/-- The tracer loop, driven by the list of observed iteration inputs.
Returns the final state and `true` when the loop `break`s; `false` means the
observations ran out with the loop still running (no C counterpart, used to
express "reaches this state without terminating"). -/
def tracer_loop (cfg : Config) : TracerState → Nat → List IterInput → TracerState × Bool
  | s, _, [] => (s, false)
  | s, n, inp :: rest =>
    match tracer_iter cfg s n inp with
    | .brk s2 => (s2, true)
    | .cont s2 => tracer_loop cfg s2 (n + 1) rest

/-- Lines 357-372, body of the delimiter cleanup loop, as a function of the
remaining input (the in-place rewrite is equivalent because the read cursor
stays strictly ahead of the write cursor).  `started` models `i_out > 0`.
The character whose lookahead is the terminating null is dropped. -/
def normFrom (d : Char) : Bool → List Char → List Char
  | _, [] => []
  | _, [_] => []
  | started, c :: c2 :: rest =>
    if c ≠ d then c :: normFrom d true (c2 :: rest)
    else if started = false then normFrom d false (c2 :: rest)
    else if c2 = d then normFrom d true (c2 :: rest)
    else c :: normFrom d true (c2 :: rest)

/-- The post-processing pass (lines 357-372): eliminate initial, duplicate
and trailing delimiters. -/
def normalize_delims (d : Char) (l : List Char) : List Char := normFrom d false l

/-- The tracer's state on entry (`file_names_list` is the empty string from
`main`, `error_list` the caller's buffer contents, `status = 0`,
`retcode = 0`). -/
def initState (error0 : List Char) : TracerState :=
  { file_names_list := [], error_list := error0, retcode := 0, status := 0,
    kills := [], setregs := [], appended := [], matched := [] }

/-- `pgoptionfiles_tracer` (lines 246-374): run the monitor loop from the
initial state, then normalize the delimiters of the collected list. -/
def pgoptionfiles_tracer (cfg : Config) (error0 : List Char) (inputs : List IterInput) :
    TracerState × Bool :=
  match tracer_loop cfg (initState error0) 0 inputs with
  | (s, brk) =>
    ({ s with file_names_list := normalize_delims cfg.delimiter s.file_names_list }, brk)

/-- The list rendered from a sequence of collected paths: the concatenation
of their delimited forms, in order. -/
def renderList (d : Char) (ps : List (List Char)) : List Char :=
  ps.foldr (fun p acc => entryOf d p ++ acc) []

/-- No two adjacent characters of the list are both the delimiter. -/
def noDoubled (d : Char) : List Char → Bool
  | a :: b :: t => !(a = d && b = d) && noDoubled d (b :: t)
  | _ => true

/-- Invariant of the collection loop: the appended paths are pairwise
distinct, a subsequence (in order) of the paths that passed the filter, the
accumulated list is exactly their delimited rendering, and every appended
path's delimited form occurs in the accumulated list. -/
def TracerInv (cfg : Config) (s : TracerState) : Prop :=
  s.appended.Nodup ∧ s.appended.Sublist s.matched ∧
  s.file_names_list = renderList cfg.delimiter s.appended ∧
  ∀ p ∈ s.appended, substr (entryOf cfg.delimiter p) s.file_names_list = true

theorem leadMatch_iff {needle hay : List Char} :
    leadMatch needle hay = true ↔ ∃ b, hay = needle ++ b := by
  unfold leadMatch
  simp only [decide_eq_true_eq]
  constructor
  · intro h
    exact ⟨hay.drop needle.length, by conv_lhs => rw [← List.take_append_drop needle.length hay, ← h]⟩
  · rintro ⟨b, rfl⟩
    rw [List.take_left]

theorem substr_iff {needle hay : List Char} :
    substr needle hay = true ↔ ∃ a b, hay = a ++ (needle ++ b) := by
  induction hay with
  | nil =>
    simp only [substr, leadMatch_iff]
    constructor
    · rintro ⟨b, h⟩
      exact ⟨[], b, h⟩
    · rintro ⟨a, b, h⟩
      exact ⟨b, by simpa using (List.append_eq_nil.mp h.symm).2⟩
  | cons c rest ih =>
    simp only [substr, Bool.or_eq_true, leadMatch_iff, ih]
    constructor
    · rintro (⟨b, h⟩ | ⟨a, b, h⟩)
      · exact ⟨[], b, h⟩
      · exact ⟨c :: a, b, by simp [h]⟩
    · rintro ⟨a, b, h⟩
      cases a with
      | nil => exact Or.inl ⟨b, by simpa using h⟩
      | cons a0 a1 =>
        right
        rw [List.cons_append] at h
        injection h with h1 h2
        exact ⟨a1, b, h2⟩

theorem substr_append_right {needle hay : List Char} (t : List Char)
    (h : substr needle hay = true) : substr needle (hay ++ t) = true := by
  obtain ⟨a, b, rfl⟩ := substr_iff.mp h
  exact substr_iff.mpr ⟨a, b ++ t, by simp⟩

theorem substr_of_suffix {needle : List Char} (a : List Char) :
    substr needle (a ++ needle) = true :=
  substr_iff.mpr ⟨a, [], by simp⟩

theorem renderList_concat (d : Char) (ps : List (List Char)) (p : List Char) :
    renderList d (ps ++ [p]) = renderList d ps ++ entryOf d p := by
  induction ps with
  | nil => simp [renderList]
  | cons q qs ih => simp [renderList, List.foldr_append] at ih ⊢; simp [ih]

theorem renderList_ends (d : Char) (ps : List (List Char)) :
    renderList d ps = [] ∨ ∃ l, renderList d ps = l ++ [d] := by
  induction ps with
  | nil => exact Or.inl rfl
  | cons q qs ih =>
    right
    have hr : renderList d (q :: qs) = entryOf d q ++ renderList d qs := rfl
    rcases ih with h | ⟨l, h⟩
    · refine ⟨d :: q, ?_⟩
      rw [hr, h, entryOf]
      simp
    · refine ⟨d :: q ++ [d] ++ l, ?_⟩
      rw [hr, h, entryOf]
      simp

theorem tracer_entry_step_none {cfg : Config} {s : TracerState} {ev : EntryEvent}
    (h : syscall_path_addr ev.regs = none) :
    tracer_entry_step cfg s ev = (s, false) := by
  unfold tracer_entry_step
  rw [h]

theorem tracer_entry_step_empty {cfg : Config} {s : TracerState} {ev : EntryEvent} {addr : Nat}
    (haddr : syscall_path_addr ev.regs = some addr)
    (hlen : (pgoptionfiles_copy_from_tracee cfg.pathMax ev.peek addr).1.length = 0) :
    tracer_entry_step cfg s ev = (s, false) := by
  unfold tracer_entry_step
  rw [haddr]
  simp [hlen]

theorem tracer_entry_step_error {cfg : Config} {s : TracerState} {ev : EntryEvent}
    {addr : Nat} {dest : List Char}
    (haddr : syscall_path_addr ev.regs = some addr)
    (hdest : (pgoptionfiles_copy_from_tracee cfg.pathMax ev.peek addr).1 = dest)
    (hlen : dest ≠ [])
    (herr : strncmpEq dest errorMarker errorMarker.length = true) :
    tracer_entry_step cfg s ev
      = ({ s with error_list := s.error_list ++ dest, retcode := -6 }, true) := by
  unfold tracer_entry_step
  rw [haddr]
  simp [hdest, hlen, herr]

theorem tracer_entry_step_nomatch {cfg : Config} {s : TracerState} {ev : EntryEvent}
    {addr : Nat} {dest : List Char}
    (haddr : syscall_path_addr ev.regs = some addr)
    (hdest : (pgoptionfiles_copy_from_tracee cfg.pathMax ev.peek addr).1 = dest)
    (hlen : dest ≠ [])
    (herr : strncmpEq dest errorMarker errorMarker.length = false)
    (hmiss : substr myCnf (cfg.delimiter :: dest) = false) :
    tracer_entry_step cfg s ev = (s, false) := by
  unfold tracer_entry_step
  rw [haddr]
  simp [hdest, hlen, herr, hmiss]

/-- The state after the register patch and the `matched` trace update, i.e.
just before the duplicate and capacity checks. -/
def stepMatchedState (cfg : Config) (s : TracerState) (ev : EntryEvent) (dest : List Char) :
    TracerState :=
  let s1 := if cfg.readMode then s
    else { s with setregs := s.setregs ++ [patch_regs ev.regs (dest.length + 1)] }
  { s1 with matched := s1.matched ++ [dest] }

theorem tracer_entry_step_dup {cfg : Config} {s : TracerState} {ev : EntryEvent}
    {addr : Nat} {dest : List Char}
    (haddr : syscall_path_addr ev.regs = some addr)
    (hdest : (pgoptionfiles_copy_from_tracee cfg.pathMax ev.peek addr).1 = dest)
    (hlen : dest ≠ [])
    (herr : strncmpEq dest errorMarker errorMarker.length = false)
    (hmatch : substr myCnf (cfg.delimiter :: dest) = true)
    (hdup : substr (entryOf cfg.delimiter dest) s.file_names_list = true) :
    tracer_entry_step cfg s ev = (stepMatchedState cfg s ev dest, false) := by
  unfold tracer_entry_step
  rw [haddr]
  have hdup2 : substr (cfg.delimiter :: (dest ++ [cfg.delimiter])) s.file_names_list = true := by
    simpa [entryOf] using hdup
  simp [hdest, hlen, herr, hmatch, hdup2, stepMatchedState]

theorem tracer_entry_step_cap {cfg : Config} {s : TracerState} {ev : EntryEvent}
    {addr : Nat} {dest : List Char}
    (haddr : syscall_path_addr ev.regs = some addr)
    (hdest : (pgoptionfiles_copy_from_tracee cfg.pathMax ev.peek addr).1 = dest)
    (hlen : dest ≠ [])
    (herr : strncmpEq dest errorMarker errorMarker.length = false)
    (hmatch : substr myCnf (cfg.delimiter :: dest) = true)
    (hdup : substr (entryOf cfg.delimiter dest) s.file_names_list = false)
    (hcap : cfg.maxListSize ≤ s.file_names_list.length + (dest.length + 2)) :
    tracer_entry_step cfg s ev = (stepMatchedState cfg s ev dest, true) := by
  unfold tracer_entry_step
  rw [haddr]
  have hdup2 : substr (cfg.delimiter :: (dest ++ [cfg.delimiter])) s.file_names_list = false := by
    simpa [entryOf] using hdup
  have hcap2 : cfg.maxListSize ≤ s.file_names_list.length + (dest.length + 1 + 1) := by omega
  simp [hdest, hlen, herr, hmatch, hdup2, hcap2, stepMatchedState]

theorem tracer_entry_step_app {cfg : Config} {s : TracerState} {ev : EntryEvent}
    {addr : Nat} {dest : List Char}
    (haddr : syscall_path_addr ev.regs = some addr)
    (hdest : (pgoptionfiles_copy_from_tracee cfg.pathMax ev.peek addr).1 = dest)
    (hlen : dest ≠ [])
    (herr : strncmpEq dest errorMarker errorMarker.length = false)
    (hmatch : substr myCnf (cfg.delimiter :: dest) = true)
    (hdup : substr (entryOf cfg.delimiter dest) s.file_names_list = false)
    (hcap : s.file_names_list.length + (dest.length + 2) < cfg.maxListSize) :
    tracer_entry_step cfg s ev
      = ({ stepMatchedState cfg s ev dest with
           file_names_list := s.file_names_list ++ entryOf cfg.delimiter dest,
           appended := s.appended ++ [dest] }, false) := by
  unfold tracer_entry_step
  rw [haddr]
  have hdup2 : substr (cfg.delimiter :: (dest ++ [cfg.delimiter])) s.file_names_list = false := by
    simpa [entryOf] using hdup
  have hcap2 : ¬ cfg.maxListSize ≤ s.file_names_list.length + (dest.length + 1 + 1) := by omega
  simp [hdest, hlen, herr, hmatch, hdup2, hcap2, stepMatchedState, entryOf]

theorem stepMatchedState_fields (cfg : Config) (s : TracerState) (ev : EntryEvent)
    (dest : List Char) :
    (stepMatchedState cfg s ev dest).file_names_list = s.file_names_list
  ∧ (stepMatchedState cfg s ev dest).appended = s.appended
  ∧ (stepMatchedState cfg s ev dest).matched = s.matched ++ [dest]
  ∧ (stepMatchedState cfg s ev dest).error_list = s.error_list
  ∧ (stepMatchedState cfg s ev dest).retcode = s.retcode
  ∧ (stepMatchedState cfg s ev dest).status = s.status := by
  by_cases hr : cfg.readMode <;> simp [stepMatchedState, hr]

theorem TracerInv.congr {cfg : Config} {s s' : TracerState} (h : TracerInv cfg s)
    (ha : s'.appended = s.appended) (hm : s'.matched = s.matched)
    (hf : s'.file_names_list = s.file_names_list) : TracerInv cfg s' := by
  obtain ⟨h1, h2, h3, h4⟩ := h
  refine ⟨?_, ?_, ?_, ?_⟩
  · rw [ha]; exact h1
  · rw [ha, hm]; exact h2
  · rw [hf, ha]; exact h3
  · rw [ha, hf]; exact h4

theorem TracerInv.matchedExt {cfg : Config} {s : TracerState} {ev : EntryEvent}
    {dest : List Char} (h : TracerInv cfg s) :
    TracerInv cfg (stepMatchedState cfg s ev dest) := by
  obtain ⟨hf, ha, hm, _⟩ := stepMatchedState_fields cfg s ev dest
  obtain ⟨h1, h2, h3, h4⟩ := h
  refine ⟨?_, ?_, ?_, ?_⟩
  · rw [ha]; exact h1
  · rw [ha, hm]; exact h2.trans (List.sublist_append_left _ _)
  · rw [hf, ha]; exact h3
  · rw [ha, hf]; exact h4

theorem TracerInv.appendCase {cfg : Config} {s : TracerState} {ev : EntryEvent}
    {dest : List Char} (h : TracerInv cfg s)
    (hdup : substr (entryOf cfg.delimiter dest) s.file_names_list = false) :
    TracerInv cfg { stepMatchedState cfg s ev dest with
                    file_names_list := s.file_names_list ++ entryOf cfg.delimiter dest,
                    appended := s.appended ++ [dest] } := by
  obtain ⟨h1, h2, h3, h4⟩ := h
  obtain ⟨hf, ha, hm, _⟩ := stepMatchedState_fields cfg s ev dest
  have hnotmem : dest ∉ s.appended := by
    intro hmem
    rw [h4 dest hmem] at hdup
    cases hdup
  refine ⟨?_, ?_, ?_, ?_⟩
  · show (s.appended ++ [dest]).Nodup
    rw [List.nodup_append]
    exact ⟨h1, List.nodup_singleton _, by
      intro a hha hhb
      rw [List.mem_singleton.mp hhb] at hha
      exact hnotmem hha⟩
  · show (s.appended ++ [dest]).Sublist _
    have : ({ stepMatchedState cfg s ev dest with
              file_names_list := s.file_names_list ++ entryOf cfg.delimiter dest,
              appended := s.appended ++ [dest] } : TracerState).matched
        = s.matched ++ [dest] := hm
    rw [this]
    exact h2.append (List.Sublist.refl [dest])
  · show s.file_names_list ++ entryOf cfg.delimiter dest
        = renderList cfg.delimiter (s.appended ++ [dest])
    rw [renderList_concat, ← h3]
  · intro p hp
    show substr (entryOf cfg.delimiter p) (s.file_names_list ++ entryOf cfg.delimiter dest) = true
    rcases List.mem_append.mp hp with hp1 | hp2
    · exact substr_append_right _ (h4 p hp1)
    · rw [List.mem_singleton.mp hp2]
      exact substr_of_suffix s.file_names_list

/-- Combined facts about one syscall-entry step: it preserves the collection
invariant, and when it does not `break` it leaves the return code and the
error text unchanged. -/
theorem tracer_entry_step_main (cfg : Config) (s : TracerState) (ev : EntryEvent) :
    (TracerInv cfg s → TracerInv cfg (tracer_entry_step cfg s ev).1) ∧
    ((tracer_entry_step cfg s ev).2 = false →
      (tracer_entry_step cfg s ev).1.retcode = s.retcode ∧
      (tracer_entry_step cfg s ev).1.error_list = s.error_list) := by
  cases hsp : syscall_path_addr ev.regs with
  | none =>
    rw [tracer_entry_step_none hsp]
    exact ⟨fun h => h, fun _ => ⟨rfl, rfl⟩⟩
  | some addr =>
    by_cases h0 : (pgoptionfiles_copy_from_tracee cfg.pathMax ev.peek addr).1 = []
    · rw [tracer_entry_step_empty hsp (by simp [h0])]
      exact ⟨fun h => h, fun _ => ⟨rfl, rfl⟩⟩
    · by_cases herr : strncmpEq (pgoptionfiles_copy_from_tracee cfg.pathMax ev.peek addr).1
          errorMarker errorMarker.length = true
      · rw [tracer_entry_step_error hsp rfl h0 herr]
        refine ⟨fun h => h.congr rfl rfl rfl, ?_⟩
        intro hfalse
        cases hfalse
      · have herr2 : strncmpEq (pgoptionfiles_copy_from_tracee cfg.pathMax ev.peek addr).1
            errorMarker errorMarker.length = false := by
          simpa using herr
        by_cases hm : substr myCnf
            (cfg.delimiter :: (pgoptionfiles_copy_from_tracee cfg.pathMax ev.peek addr).1) = true
        · by_cases hdup : substr
              (entryOf cfg.delimiter (pgoptionfiles_copy_from_tracee cfg.pathMax ev.peek addr).1)
              s.file_names_list = true
          · rw [tracer_entry_step_dup hsp rfl h0 herr2 hm hdup]
            obtain ⟨hf, ha, hmm, he, hrc, _⟩ := stepMatchedState_fields cfg s ev
              (pgoptionfiles_copy_from_tracee cfg.pathMax ev.peek addr).1
            exact ⟨fun h => h.matchedExt, fun _ => ⟨hrc, he⟩⟩
          · have hdup2 : substr
                (entryOf cfg.delimiter (pgoptionfiles_copy_from_tracee cfg.pathMax ev.peek addr).1)
                s.file_names_list = false := by
              simpa using hdup
            by_cases hcap : cfg.maxListSize ≤ s.file_names_list.length
                + ((pgoptionfiles_copy_from_tracee cfg.pathMax ev.peek addr).1.length + 2)
            · rw [tracer_entry_step_cap hsp rfl h0 herr2 hm hdup2 hcap]
              refine ⟨fun h => h.matchedExt, ?_⟩
              intro hfalse
              cases hfalse
            · rw [tracer_entry_step_app hsp rfl h0 herr2 hm hdup2 (by omega)]
              obtain ⟨hf, ha, hmm, he, hrc, _⟩ := stepMatchedState_fields cfg s ev
                (pgoptionfiles_copy_from_tracee cfg.pathMax ev.peek addr).1
              exact ⟨fun h => h.appendCase hdup2, fun _ => ⟨hrc, he⟩⟩
        · have hm2 : substr myCnf
              (cfg.delimiter :: (pgoptionfiles_copy_from_tracee cfg.pathMax ev.peek addr).1)
              = false := by
            simpa using hm
          rw [tracer_entry_step_nomatch hsp rfl h0 herr2 hm2]
          exact ⟨fun h => h, fun _ => ⟨rfl, rfl⟩⟩

theorem tracer_iter_resumeFail {cfg : Config} {s : TracerState} {n : Nat} {inp : IterInput}
    (h1 : n ≠ 0) (h2 : inp.resumeOk = false) :
    tracer_iter cfg s n inp = .brk { s with retcode := -1 } := by
  unfold tracer_iter
  rw [if_pos ⟨h1, h2⟩]

theorem tracer_iter_waitFail_exited {cfg : Config} {s : TracerState} {n : Nat} {ro : Bool}
    (h1 : ¬(n ≠ 0 ∧ ro = false)) (h2 : WIFEXITED s.status = true) :
    tracer_iter cfg s n ⟨ro, .waitFail⟩ = .brk { s with retcode := 0 } := by
  unfold tracer_iter
  rw [if_neg h1]
  dsimp only
  rw [if_pos h2]

theorem tracer_iter_waitFail_live {cfg : Config} {s : TracerState} {n : Nat} {ro : Bool}
    (h1 : ¬(n ≠ 0 ∧ ro = false)) (h2 : WIFEXITED s.status = false) :
    tracer_iter cfg s n ⟨ro, .waitFail⟩
      = .brk { s with error_list := s.error_list ++ waitpidFailedMsg, retcode := -2 } := by
  unfold tracer_iter
  rw [if_neg h1]
  dsimp only
  rw [if_neg (by rw [h2]; exact Bool.false_ne_true)]

theorem tracer_iter_exited {cfg : Config} {s : TracerState} {n : Nat} {ro : Bool}
    {status : Nat} {ev : EntryEvent}
    (h1 : ¬(n ≠ 0 ∧ ro = false)) (h2 : WIFEXITED status = true) :
    tracer_iter cfg s n ⟨ro, .wait status ev⟩ = .brk { s with status := status, retcode := 0 } := by
  unfold tracer_iter
  rw [if_neg h1]
  dsimp only
  rw [if_pos h2]

theorem tracer_iter_init_ok {cfg : Config} {s : TracerState} {ro : Bool}
    {status : Nat} {ev : EntryEvent}
    (h2 : WIFEXITED status = false) (h4 : WIFSTOPPED status ∧ WSTOPSIG status = SIGSTOP) :
    tracer_iter cfg s 0 ⟨ro, .wait status ev⟩ = .cont { s with status := status } := by
  unfold tracer_iter
  rw [if_neg (by simp)]
  dsimp only
  rw [if_neg (by rw [h2]; exact Bool.false_ne_true), if_pos rfl, if_pos h4]

theorem tracer_iter_init_bad {cfg : Config} {s : TracerState} {ro : Bool}
    {status : Nat} {ev : EntryEvent}
    (h2 : WIFEXITED status = false) (h4 : ¬(WIFSTOPPED status ∧ WSTOPSIG status = SIGSTOP)) :
    tracer_iter cfg s 0 ⟨ro, .wait status ev⟩
      = .brk { s with
               status := status, kills := s.kills ++ [SIGKILL],
               error_list := s.error_list ++ waitStatusMsg status, retcode := -3 } := by
  unfold tracer_iter
  rw [if_neg (by simp)]
  dsimp only
  rw [if_neg (by rw [h2]; exact Bool.false_ne_true), if_pos rfl, if_neg h4]

theorem tracer_iter_entry {cfg : Config} {s : TracerState} {n : Nat} {ro : Bool}
    {status : Nat} {ev : EntryEvent}
    (h1 : ¬(n ≠ 0 ∧ ro = false)) (h2 : WIFEXITED status = false)
    (h3 : n % 2 = 1) :
    tracer_iter cfg s n ⟨ro, .wait status ev⟩
      = (if (tracer_entry_step cfg { s with status := status } ev).2
         then .brk (tracer_entry_step cfg { s with status := status } ev).1
         else .cont (tracer_entry_step cfg { s with status := status } ev).1) := by
  unfold tracer_iter
  rw [if_neg h1]
  dsimp only
  rw [if_neg (by rw [h2]; exact Bool.false_ne_true), if_neg (by omega), if_pos h3]

theorem tracer_iter_exit {cfg : Config} {s : TracerState} {n : Nat} {ro : Bool}
    {status : Nat} {ev : EntryEvent}
    (h1 : ¬(n ≠ 0 ∧ ro = false)) (h2 : WIFEXITED status = false)
    (h3 : n ≠ 0) (h5 : n % 2 ≠ 1) :
    tracer_iter cfg s n ⟨ro, .wait status ev⟩ = .cont { s with status := status } := by
  unfold tracer_iter
  rw [if_neg h1]
  dsimp only
  rw [if_neg (by rw [h2]; exact Bool.false_ne_true), if_neg h3, if_neg h5]

/-- Combined facts about one loop iteration: it preserves the collection
invariant, and a non-breaking iteration leaves the return code and the error
text unchanged. -/
theorem tracer_iter_main (cfg : Config) (s : TracerState) (n : Nat) (inp : IterInput) :
    (TracerInv cfg s → TracerInv cfg (tracer_iter cfg s n inp).state) ∧
    (∀ s2, tracer_iter cfg s n inp = .cont s2 →
      s2.retcode = s.retcode ∧ s2.error_list = s.error_list) := by
  obtain ⟨ro, out⟩ := inp
  by_cases h1 : n ≠ 0 ∧ ro = false
  · rw [tracer_iter_resumeFail h1.1 h1.2]
    exact ⟨fun h => h.congr rfl rfl rfl, fun s2 hc => by cases hc⟩
  · cases out with
    | waitFail =>
      by_cases h2 : WIFEXITED s.status = true
      · rw [tracer_iter_waitFail_exited h1 h2]
        exact ⟨fun h => h.congr rfl rfl rfl, fun s2 hc => by cases hc⟩
      · rw [tracer_iter_waitFail_live h1 (by simpa using h2)]
        exact ⟨fun h => h.congr rfl rfl rfl, fun s2 hc => by cases hc⟩
    | wait status ev =>
      by_cases h2 : WIFEXITED status = true
      · rw [tracer_iter_exited h1 h2]
        exact ⟨fun h => h.congr rfl rfl rfl, fun s2 hc => by cases hc⟩
      · have h2f : WIFEXITED status = false := by simpa using h2
        by_cases h3 : n = 0
        · subst h3
          by_cases h4 : WIFSTOPPED status ∧ WSTOPSIG status = SIGSTOP
          · rw [tracer_iter_init_ok h2f h4]
            refine ⟨fun h => h.congr rfl rfl rfl, fun s2 hc => ?_⟩
            cases hc
            exact ⟨rfl, rfl⟩
          · rw [tracer_iter_init_bad h2f h4]
            exact ⟨fun h => h.congr rfl rfl rfl, fun s2 hc => by cases hc⟩
        · by_cases h5 : n % 2 = 1
          · rw [tracer_iter_entry h1 h2f h5]
            have hstep := tracer_entry_step_main cfg { s with status := status } ev
            by_cases h6 : (tracer_entry_step cfg { s with status := status } ev).2 = true
            · rw [if_pos h6]
              exact ⟨fun h => hstep.1 (h.congr rfl rfl rfl), fun s2 hc => by cases hc⟩
            · rw [if_neg h6]
              refine ⟨fun h => hstep.1 (h.congr rfl rfl rfl), fun s2 hc => ?_⟩
              cases hc
              exact hstep.2 (by simpa using h6)
          · rw [tracer_iter_exit h1 h2f h3 h5]
            refine ⟨fun h => h.congr rfl rfl rfl, fun s2 hc => ?_⟩
            cases hc
            exact ⟨rfl, rfl⟩

/-- The loop preserves the collection invariant. -/
theorem tracer_loop_inv (cfg : Config) :
    ∀ (inputs : List IterInput) (s : TracerState) (n : Nat),
      TracerInv cfg s → TracerInv cfg (tracer_loop cfg s n inputs).1 := by
  intro inputs
  induction inputs with
  | nil => exact fun s n h => h
  | cons inp rest ih =>
    intro s n h
    have hi := (tracer_iter_main cfg s n inp).1 h
    unfold tracer_loop
    cases hit : tracer_iter cfg s n inp with
    | brk s2 =>
      rw [hit] at hi
      exact hi
    | cont s2 =>
      rw [hit] at hi
      exact ih s2 (n + 1) hi

/-- A run of the loop that never `break`s leaves the return code and the
error text unchanged. -/
theorem tracer_loop_no_break (cfg : Config) :
    ∀ (inputs : List IterInput) (s : TracerState) (n : Nat) (s2 : TracerState),
      tracer_loop cfg s n inputs = (s2, false) →
      s2.retcode = s.retcode ∧ s2.error_list = s.error_list := by
  intro inputs
  induction inputs with
  | nil =>
    intro s n s2 h
    cases h
    exact ⟨rfl, rfl⟩
  | cons inp rest ih =>
    intro s n s2 h
    unfold tracer_loop at h
    cases hit : tracer_iter cfg s n inp with
    | brk s3 =>
      rw [hit] at h
      cases h
    | cont s3 =>
      rw [hit] at h
      have h1 := (tracer_iter_main cfg s n inp).2 s3 hit
      have h2 := ih s3 (n + 1) s2 h
      exact ⟨h2.1.trans h1.1, h2.2.trans h1.2⟩

/-- Decomposition of a loop run: a prefix of observations that does not
`break` continues with the remaining observations from the reached state. -/
theorem tracer_loop_append (cfg : Config) :
    ∀ (pre suf : List IterInput) (s s2 : TracerState) (n : Nat),
      tracer_loop cfg s n pre = (s2, false) →
      tracer_loop cfg s n (pre ++ suf) = tracer_loop cfg s2 (n + pre.length) suf := by
  intro pre
  induction pre with
  | nil =>
    intro suf s s2 n h
    cases h
    rfl
  | cons inp rest ih =>
    intro suf s s2 n h
    have hcons : ∀ (l : List IterInput) (t : TracerState),
        tracer_loop cfg t n (inp :: l)
          = match tracer_iter cfg t n inp with
            | .brk s3 => (s3, true)
            | .cont s3 => tracer_loop cfg s3 (n + 1) l := fun _ _ => rfl
    rw [hcons] at h
    rw [List.cons_append, hcons]
    cases hit : tracer_iter cfg s n inp with
    | brk s3 =>
      rw [hit] at h
      cases h
    | cont s3 =>
      rw [hit] at h
      dsimp only
      rw [ih suf s3 s2 (n + 1) h]
      simp only [List.length_cons]
      congr 1
      omega

theorem normFrom_head_ne (d c2 : Char) (rest : List Char) (b : Bool) (hc2 : c2 ≠ d) :
    (normFrom d b (c2 :: rest)).head? = none ∨ (normFrom d b (c2 :: rest)).head? = some c2 := by
  cases rest with
  | nil => exact Or.inl rfl
  | cons r rs =>
    right
    unfold normFrom
    rw [if_pos hc2]
    rfl

theorem normFrom_head_start (d : Char) : ∀ (l : List Char),
    (normFrom d false l).head? ≠ some d := by
  intro l
  induction l with
  | nil => simp [normFrom]
  | cons c t ih =>
    cases t with
    | nil => simp [normFrom]
    | cons c2 rest =>
      by_cases hc : c ≠ d
      · unfold normFrom
        rw [if_pos hc]
        simp only [List.head?_cons, ne_eq, Option.some.injEq]
        exact hc
      · have hcd : c = d := not_not.mp hc
        unfold normFrom
        rw [if_neg hc, if_pos rfl]
        exact ih

theorem noDoubled_cons (d a : Char) (l : List Char) (h : noDoubled d l = true)
    (h2 : a = d → l.head? ≠ some d) : noDoubled d (a :: l) = true := by
  cases l with
  | nil => rfl
  | cons b2 t =>
    unfold noDoubled
    rw [h, Bool.and_true]
    by_cases had : a = d
    · have hb2 : b2 ≠ d := by
        intro hbd
        exact h2 had (by rw [List.head?_cons, hbd])
      simp [had, hb2]
    · simp [had]

theorem normFrom_noDoubled (d : Char) : ∀ (l : List Char) (b : Bool),
    noDoubled d (normFrom d b l) = true := by
  intro l
  induction l with
  | nil => intro b; rfl
  | cons c t ih =>
    intro b
    cases t with
    | nil => rfl
    | cons c2 rest =>
      by_cases hc : c ≠ d
      · unfold normFrom
        rw [if_pos hc]
        refine noDoubled_cons d c _ (ih true) ?_
        intro had
        exact absurd had hc
      · unfold normFrom
        rw [if_neg hc]
        by_cases hb : b = false
        · rw [if_pos hb]
          exact ih false
        · rw [if_neg hb]
          by_cases hc2 : c2 = d
          · rw [if_pos hc2]
            exact ih true
          · rw [if_neg hc2]
            refine noDoubled_cons d c _ (ih true) ?_
            intro _
            rcases normFrom_head_ne d c2 rest true hc2 with hh | hh <;> rw [hh] <;> simp
            exact hc2

theorem normFrom_no_trail (d : Char) : ∀ (l : List Char) (b : Bool),
    (l = [] ∨ ∃ l2, l = l2 ++ [d]) → (normFrom d b l).getLast? ≠ some d := by
  intro l
  induction l with
  | nil => intro b _; simp [normFrom]
  | cons c t ih =>
    intro b hend
    rcases hend with he | ⟨l2, he⟩
    · cases he
    cases t with
    | nil => simp [normFrom]
    | cons c2 rest =>
      obtain ⟨l3, hl3⟩ : ∃ l3, c2 :: rest = l3 ++ [d] := by
        cases l2 with
        | nil =>
          rw [List.nil_append] at he
          injection he with h1 h2
          cases h2
        | cons x xs =>
          rw [List.cons_append] at he
          injection he with h1 h2
          exact ⟨xs, h2⟩
      have htail : (c2 :: rest : List Char) = [] ∨ ∃ l2, c2 :: rest = l2 ++ [d] :=
        Or.inr ⟨l3, hl3⟩
      by_cases hc : c ≠ d
      · unfold normFrom
        rw [if_pos hc]
        cases hN : normFrom d true (c2 :: rest) with
        | nil =>
          simp only [List.getLast?_singleton, ne_eq, Option.some.injEq]
          exact hc
        | cons y ys =>
          rw [List.getLast?_cons_cons, ← hN]
          exact ih true htail
      · unfold normFrom
        rw [if_neg hc]
        by_cases hb : b = false
        · rw [if_pos hb]
          exact ih false htail
        · rw [if_neg hb]
          by_cases hc2 : c2 = d
          · rw [if_pos hc2]
            exact ih true htail
          · rw [if_neg hc2]
            have hrest : rest ≠ [] := by
              intro hr
              rw [hr] at hl3
              cases l3 with
              | nil =>
                rw [List.nil_append] at hl3
                injection hl3 with hh1 hh2
                exact hc2 hh1
              | cons z zs =>
                rw [List.cons_append] at hl3
                injection hl3 with hh1 hh2
                simp at hh2
            obtain ⟨r, rs, hrr⟩ : ∃ r rs, rest = r :: rs := by
              cases rest with
              | nil => exact absurd rfl hrest
              | cons r rs => exact ⟨r, rs, rfl⟩
            have hNne : normFrom d true (c2 :: rest) ≠ [] := by
              rw [hrr]
              unfold normFrom
              rw [if_pos hc2]
              exact List.cons_ne_nil _ _
            cases hN : normFrom d true (c2 :: rest) with
            | nil => exact absurd hN hNne
            | cons y ys =>
              rw [List.getLast?_cons_cons, ← hN]
              exact ih true htail

theorem scanWord_length (pathMax : Nat) : ∀ (bs acc : List Char),
    acc.length ≤ pathMax - 1 → (scanWord pathMax bs acc).1.length ≤ pathMax - 1 := by
  intro bs
  induction bs with
  | nil => exact fun acc h => h
  | cons c rest ih =>
    intro acc h
    unfold scanWord
    by_cases h1 : pathMax - 1 ≤ acc.length
    · rw [if_pos h1]
      exact h
    · rw [if_neg h1]
      by_cases h2 : c = NUL
      · rw [if_pos h2]
        exact h
      · rw [if_neg h2]
        apply ih
        simp only [List.length_append, List.length_cons, List.length_nil]
        omega

theorem scanWord_no_nul (pathMax : Nat) : ∀ (bs acc : List Char),
    (∀ x ∈ acc, x ≠ NUL) → ∀ x ∈ (scanWord pathMax bs acc).1, x ≠ NUL := by
  intro bs
  induction bs with
  | nil => exact fun acc h => h
  | cons c rest ih =>
    intro acc h
    unfold scanWord
    by_cases h1 : pathMax - 1 ≤ acc.length
    · rw [if_pos h1]
      exact h
    · rw [if_neg h1]
      by_cases h2 : c = NUL
      · rw [if_pos h2]
        exact h
      · rw [if_neg h2]
        apply ih
        intro x hx
        rcases List.mem_append.mp hx with hx1 | hx2
        · exact h x hx1
        · rw [List.mem_singleton.mp hx2]
          exact h2

theorem copyAux_length (pathMax : Nat) (peek : Nat → Option Nat) (src : Nat) :
    ∀ (fuel wn : Nat) (acc : List Char) (reads : Nat),
      acc.length ≤ pathMax - 1 →
      (copyAux pathMax peek src fuel wn acc reads).1.length ≤ pathMax - 1 := by
  intro fuel
  induction fuel with
  | zero => exact fun wn acc reads h => h
  | succ f ih =>
    intro wn acc reads h
    unfold copyAux
    cases peek (src + SIZEOF_WORD * wn) with
    | none => exact h
    | some w =>
      dsimp only
      have hs := scanWord_length pathMax (wordBytes w) acc h
      cases hsw : scanWord pathMax (wordBytes w) acc with
      | mk acc2 flag =>
        rw [hsw] at hs
        cases flag with
        | true => exact hs
        | false =>
          dsimp only
          exact ih (wn + 1) acc2 (reads + 1) hs

theorem copyAux_no_nul (pathMax : Nat) (peek : Nat → Option Nat) (src : Nat) :
    ∀ (fuel wn : Nat) (acc : List Char) (reads : Nat),
      (∀ x ∈ acc, x ≠ NUL) →
      ∀ x ∈ (copyAux pathMax peek src fuel wn acc reads).1, x ≠ NUL := by
  intro fuel
  induction fuel with
  | zero => exact fun wn acc reads h => h
  | succ f ih =>
    intro wn acc reads h
    unfold copyAux
    cases peek (src + SIZEOF_WORD * wn) with
    | none => exact h
    | some w =>
      dsimp only
      have hs := scanWord_no_nul pathMax (wordBytes w) acc h
      cases hsw : scanWord pathMax (wordBytes w) acc with
      | mk acc2 flag =>
        rw [hsw] at hs
        cases flag with
        | true => exact hs
        | false =>
          dsimp only
          exact ih (wn + 1) acc2 (reads + 1) hs

theorem tracer_iter_entry_brk {cfg : Config} {s : TracerState} {n : Nat} {ro : Bool}
    {status : Nat} {ev : EntryEvent} {s2 : TracerState}
    (h1 : ¬(n ≠ 0 ∧ ro = false)) (h2 : WIFEXITED status = false) (h3 : n % 2 = 1)
    (hstep : tracer_entry_step cfg { s with status := status } ev = (s2, true)) :
    tracer_iter cfg s n ⟨ro, .wait status ev⟩ = .brk s2 := by
  rw [tracer_iter_entry h1 h2 h3, hstep]
  rfl

theorem tracer_loop_cons_eq (cfg : Config) (s : TracerState) (n : Nat) (inp : IterInput)
    (rest : List IterInput) :
    tracer_loop cfg s n (inp :: rest)
      = match tracer_iter cfg s n inp with
        | .brk s3 => (s3, true)
        | .cont s3 => tracer_loop cfg s3 (n + 1) rest := rfl

/-- A concrete memory: the bytes of "my.cnf" and a null terminator in the
word at address 1000, zero words everywhere else. -/
def wMyCnf : Nat := 109 + 121 * 256 + 46 * 256 ^ 2 + 99 * 256 ^ 3 + 110 * 256 ^ 4 + 102 * 256 ^ 5

def peekMyCnf : Nat → Option Nat := fun a => if a = 1000 then some wMyCnf else some 0

/-- A concrete memory: the bytes of "Error: " and a null terminator in the
word at address 2000, zero words everywhere else. -/
def wErrBytes : Nat :=
  69 + 114 * 256 + 114 * 256 ^ 2 + 111 * 256 ^ 3 + 114 * 256 ^ 4 + 58 * 256 ^ 5 + 32 * 256 ^ 6

def peekErr : Nat → Option Nat := fun a => if a = 2000 then some wErrBytes else some 0

/-- The default build configuration: newline delimiter, suppressed-read
mode. -/
def cfgW : Config :=
  { delimiter := Char.ofNat 10, maxListSize := 4096, pathMax := 4096, readMode := false }

/-- Like `cfgW` but with a tiny output buffer, to exercise the capacity
check. -/
def cfgSmall : Config :=
  { delimiter := Char.ofNat 10, maxListSize := 8, pathMax := 4096, readMode := false }

def evDummy : EntryEvent := ⟨⟨0, 0, 0⟩, fun _ => some 0⟩

def evMyCnf : EntryEvent := ⟨⟨257, 0, 1000⟩, peekMyCnf⟩

def evErr : EntryEvent := ⟨⟨257, 0, 2000⟩, peekErr⟩

/-- One confirmed initial SIGSTOP stop (`status = 0x137f`). -/
def preW : List IterInput := [⟨true, .wait 4991 evDummy⟩]

/-- The state after the confirmed initial stop. -/
def sW : TracerState := { initState [] with status := 4991 }

/-- **C1**: for every session the collected path list has no duplicates and
preserves first-seen order: the sequence of appended paths is duplicate-free
(`Nodup`), is an order-preserving subsequence of the observed matching paths
(a path is appended only when its delimited form is not yet present), and the
accumulated list is exactly the concatenation of the appended paths'
delimited forms, in observation order. -/
theorem claim_C1 (cfg : Config) (error0 : List Char) (inputs : List IterInput) :
    (tracer_loop cfg (initState error0) 0 inputs).1.appended.Nodup
  ∧ (tracer_loop cfg (initState error0) 0 inputs).1.appended.Sublist
      (tracer_loop cfg (initState error0) 0 inputs).1.matched
  ∧ (tracer_loop cfg (initState error0) 0 inputs).1.file_names_list
      = renderList cfg.delimiter (tracer_loop cfg (initState error0) 0 inputs).1.appended := by
  have h0 : TracerInv cfg (initState error0) := by
    refine ⟨List.nodup_nil, List.Sublist.refl _, rfl, ?_⟩
    intro p hp
    cases hp
  have h := tracer_loop_inv cfg inputs (initState error0) 0 h0
  exact ⟨h.1, h.2.1, h.2.2.1⟩

/-- **C3**: after the post-processing normalization pass, the final path list
has no leading delimiter, no trailing delimiter, and no two adjacent
delimiter characters. -/
theorem claim_C3 (cfg : Config) (error0 : List Char) (inputs : List IterInput) :
    (pgoptionfiles_tracer cfg error0 inputs).1.file_names_list.head? ≠ some cfg.delimiter
  ∧ (pgoptionfiles_tracer cfg error0 inputs).1.file_names_list.getLast? ≠ some cfg.delimiter
  ∧ noDoubled cfg.delimiter (pgoptionfiles_tracer cfg error0 inputs).1.file_names_list
      = true := by
  have h0 : TracerInv cfg (initState error0) := by
    refine ⟨List.nodup_nil, List.Sublist.refl _, rfl, ?_⟩
    intro p hp
    cases hp
  have hinv := tracer_loop_inv cfg inputs (initState error0) 0 h0
  have hrun : (pgoptionfiles_tracer cfg error0 inputs).1.file_names_list
      = normalize_delims cfg.delimiter
          (tracer_loop cfg (initState error0) 0 inputs).1.file_names_list := by
    unfold pgoptionfiles_tracer
    cases tracer_loop cfg (initState error0) 0 inputs with
    | mk s brk => rfl
  have hends : (tracer_loop cfg (initState error0) 0 inputs).1.file_names_list = []
      ∨ ∃ l2, (tracer_loop cfg (initState error0) 0 inputs).1.file_names_list
          = l2 ++ [cfg.delimiter] := by
    rw [hinv.2.2.1]
    exact renderList_ends cfg.delimiter _
  rw [hrun]
  unfold normalize_delims
  exact ⟨normFrom_head_start cfg.delimiter _,
    normFrom_no_trail cfg.delimiter _ false hends,
    normFrom_noDoubled cfg.delimiter _ false⟩

/-- **C6**: a path argument is extracted iff the decoded syscall number is
one of exactly `open` (2), `stat` (4), `lstat` (6), `access` (21),
`openat` (257); for `openat` the remote address is taken from `rsi`
(`args[1]`), for the other four from `rdi` (`args[0]`); any other syscall
number makes the entry step a no-op. -/
theorem claim_C6 (r : user_regs_struct) :
    ((syscall_path_addr r).isSome = true ↔
      (r.orig_rax = SYSCALL_OPEN ∨ r.orig_rax = SYSCALL_STAT ∨ r.orig_rax = SYSCALL_LSTAT
        ∨ r.orig_rax = SYSCALL_ACCESS ∨ r.orig_rax = SYSCALL_OPENAT))
  ∧ (r.orig_rax = SYSCALL_OPENAT → syscall_path_addr r = some r.rsi)
  ∧ ((r.orig_rax = SYSCALL_OPEN ∨ r.orig_rax = SYSCALL_STAT ∨ r.orig_rax = SYSCALL_LSTAT
        ∨ r.orig_rax = SYSCALL_ACCESS) → syscall_path_addr r = some r.rdi)
  ∧ (syscall_path_addr r = none →
      ∀ (cfg : Config) (s : TracerState) (peek : Nat → Option Nat),
        tracer_entry_step cfg s ⟨r, peek⟩ = (s, false)) := by
  refine ⟨?_, ?_, ?_, ?_⟩
  · unfold syscall_path_addr
    split
    · next h => simp only [Option.isSome_some, true_iff]; tauto
    · next h =>
      simp only [Option.isSome_none, Bool.false_eq_true, false_iff]
      tauto
  · intro h
    unfold syscall_path_addr
    rw [if_pos (Or.inl h), if_pos h]
  · intro h
    have h1 : r.orig_rax = SYSCALL_OPENAT ∨ r.orig_rax = SYSCALL_ACCESS
        ∨ r.orig_rax = SYSCALL_STAT ∨ r.orig_rax = SYSCALL_OPEN
        ∨ r.orig_rax = SYSCALL_LSTAT := by tauto
    have hne : r.orig_rax ≠ SYSCALL_OPENAT := by
      rcases h with h | h | h | h <;> rw [h] <;> decide
    unfold syscall_path_addr
    rw [if_pos h1, if_neg hne]
  · intro h cfg s peek
    exact tracer_entry_step_none h

/-- Witness for C6: at syscall number 257 (`openat`) the address is taken
from `rsi`. -/
theorem claim_C6_witness : syscall_path_addr ⟨257, 3, 44⟩ = some 44 :=
  (claim_C6 ⟨257, 3, 44⟩).2.1 rfl

/-- **C8**: the remote string read returns length zero for a null remote
address, performing no remote reads at all (the read counter stays 0). -/
theorem claim_C8 (pathMax : Nat) (peek : Nat → Option Nat) :
    pgoptionfiles_copy_from_tracee pathMax peek 0 = ([], 0) := by
  unfold pgoptionfiles_copy_from_tracee
  rw [if_pos rfl]

/-- **C9**: for every remote string the reader stores at most `pathMax - 1`
bytes into the destination, all of them non-null (so the buffer is always
null-terminated within its bounds), and the returned length is strictly less
than `pathMax`. -/
theorem claim_C9 (pathMax : Nat) (peek : Nat → Option Nat) (src : Nat)
    (h : 1 ≤ pathMax) :
    (pgoptionfiles_copy_from_tracee pathMax peek src).1.length ≤ pathMax - 1
  ∧ (pgoptionfiles_copy_from_tracee pathMax peek src).1.length < pathMax
  ∧ ∀ x ∈ (pgoptionfiles_copy_from_tracee pathMax peek src).1, x ≠ NUL := by
  unfold pgoptionfiles_copy_from_tracee
  by_cases hs : src = 0
  · rw [if_pos hs]
    refine ⟨by simp, by simpa using h, by simp⟩
  · rw [if_neg hs]
    have h1 := copyAux_length pathMax peek src pathMax 0 [] 0 (by simp)
    have h2 := copyAux_no_nul pathMax peek src pathMax 0 [] 0 (by simp)
    exact ⟨h1, by omega, h2⟩

/-- Witness for C9 at `pathMax = 4096` on a concrete memory. -/
theorem claim_C9_witness :
    1 ≤ 4096 ∧ (pgoptionfiles_copy_from_tracee 4096 peekMyCnf 1000).1.length < 4096 :=
  ⟨by decide, (claim_C9 4096 peekMyCnf 1000 (by decide)).2.1⟩

/-- **C2** (code bug): the suppressed-read register patch does not land on
the terminating null byte.  For the remote string "my.cnf" (length 6) at
address 1000, reached via `openat`, the committed snapshot holds
`rsi = 1007 = 1000 + 6 + 1` — one byte past the string's null terminator at
1006 — because the offset is `strlen(file_name)`, which includes the
prepended delimiter. -/
theorem claim_C2_code_bug :
    (pgoptionfiles_copy_from_tracee cfgW.pathMax peekMyCnf 1000).1.length = 6
  ∧ (tracer_entry_step cfgW (initState []) evMyCnf).1.setregs = [⟨257, 0, 1007⟩]
  ∧ (1007 : Nat)
      ≠ 1000 + (pgoptionfiles_copy_from_tracee cfgW.pathMax peekMyCnf 1000).1.length := by
  refine ⟨by decide, by decide, by decide⟩

/-- **C10**: in suppressed-read mode the register patch is applied before the
duplicate and capacity tests, so a matching path that is then dropped as a
duplicate or by the capacity check still commits a patched register snapshot
while the path list and the appended trace stay unchanged. -/
theorem claim_C10 (cfg : Config) (s : TracerState) (ev : EntryEvent) (addr : Nat)
    (dest : List Char)
    (hread : cfg.readMode = false)
    (haddr : syscall_path_addr ev.regs = some addr)
    (hdest : (pgoptionfiles_copy_from_tracee cfg.pathMax ev.peek addr).1 = dest)
    (hlen : dest ≠ [])
    (herr : strncmpEq dest errorMarker errorMarker.length = false)
    (hmatch : substr myCnf (cfg.delimiter :: dest) = true)
    (hskip : substr (entryOf cfg.delimiter dest) s.file_names_list = true
      ∨ cfg.maxListSize ≤ s.file_names_list.length + (dest.length + 2)) :
    (tracer_entry_step cfg s ev).1.setregs
        = s.setregs ++ [patch_regs ev.regs (dest.length + 1)]
  ∧ (tracer_entry_step cfg s ev).1.file_names_list = s.file_names_list
  ∧ (tracer_entry_step cfg s ev).1.appended = s.appended := by
  have hsm : (stepMatchedState cfg s ev dest).setregs
      = s.setregs ++ [patch_regs ev.regs (dest.length + 1)] := by
    simp [stepMatchedState, hread]
  rcases hskip with hdup | hcap
  · rw [tracer_entry_step_dup haddr hdest hlen herr hmatch hdup]
    obtain ⟨hf, ha, _⟩ := stepMatchedState_fields cfg s ev dest
    exact ⟨hsm, hf, ha⟩
  · by_cases hdup : substr (entryOf cfg.delimiter dest) s.file_names_list = true
    · rw [tracer_entry_step_dup haddr hdest hlen herr hmatch hdup]
      obtain ⟨hf, ha, _⟩ := stepMatchedState_fields cfg s ev dest
      exact ⟨hsm, hf, ha⟩
    · rw [tracer_entry_step_cap haddr hdest hlen herr hmatch (by simpa using hdup) hcap]
      obtain ⟨hf, ha, _⟩ := stepMatchedState_fields cfg s ev dest
      exact ⟨hsm, hf, ha⟩

/-- A state whose list already holds the delimited entry for "my.cnf". -/
def sDup : TracerState :=
  { initState [] with file_names_list := entryOf (Char.ofNat 10) "my.cnf".toList }

/-- Witness for C10: a duplicate "my.cnf" still commits a patched snapshot
and leaves the list unchanged. -/
theorem claim_C10_witness :
    (tracer_entry_step cfgW sDup evMyCnf).1.setregs
        = [patch_regs ⟨257, 0, 1000⟩ 7]
  ∧ (tracer_entry_step cfgW sDup evMyCnf).1.file_names_list = sDup.file_names_list := by
  have h := claim_C10 cfgW sDup evMyCnf 1000 "my.cnf".toList rfl rfl (by decide)
    (by decide) (by decide) (by decide) (Or.inl (by decide))
  exact ⟨h.1, h.2.1⟩

/-- **C4**: an observed file-access syscall whose extracted argument begins
with "Error: " terminates the monitor loop immediately — independent of any
further observations, and without the filename filter being consulted (no
`my.cnf` hypothesis appears) — appending that string verbatim to the error
text, with return code -6, and with the path list exactly as collected
strictly before the event (only normalized as always). -/
theorem claim_C4 (cfg : Config) (error0 : List Char) (pre rest : List IterInput)
    (s : TracerState) (status addr : Nat) (ev : EntryEvent) (dest : List Char)
    (hpre : tracer_loop cfg (initState error0) 0 pre = (s, false))
    (hodd : pre.length % 2 = 1)
    (hex : WIFEXITED status = false)
    (haddr : syscall_path_addr ev.regs = some addr)
    (hdest : (pgoptionfiles_copy_from_tracee cfg.pathMax ev.peek addr).1 = dest)
    (hlen : dest ≠ [])
    (herr : strncmpEq dest errorMarker errorMarker.length = true) :
    pgoptionfiles_tracer cfg error0 (pre ++ ⟨true, .wait status ev⟩ :: rest)
      = ({ s with status := status,
                  error_list := error0 ++ dest,
                  retcode := -6,
                  file_names_list := normalize_delims cfg.delimiter s.file_names_list },
         true) := by
  have hpres := tracer_loop_no_break cfg pre (initState error0) 0 s hpre
  have herr0 : s.error_list = error0 := hpres.2
  have hstep : tracer_entry_step cfg { s with status := status } ev
      = ({ s with status := status, error_list := s.error_list ++ dest, retcode := -6 },
         true) :=
    tracer_entry_step_error haddr hdest hlen herr
  have hiter := @tracer_iter_entry_brk cfg s (0 + pre.length) true status ev _
    (by simp) hex (by omega) hstep
  unfold pgoptionfiles_tracer
  rw [tracer_loop_append cfg pre (⟨true, .wait status ev⟩ :: rest) (initState error0) s 0 hpre,
    tracer_loop_cons_eq, hiter]
  dsimp only
  rw [← herr0]

/-- Witness for C4: after a confirmed initial stop, an `openat` whose
argument reads "Error: " ends the session with that text and code -6. -/
theorem claim_C4_witness :
    pgoptionfiles_tracer cfgW [] (preW ++ [⟨true, .wait 1407 evErr⟩])
      = ({ sW with status := 1407,
                   error_list := [] ++ "Error: ".toList,
                   retcode := -6,
                   file_names_list := normalize_delims cfgW.delimiter sW.file_names_list },
         true) :=
  claim_C4 cfgW [] preW [] sW 1407 2000 evErr "Error: ".toList (by decide) (by decide)
    (by decide) rfl (by decide) (by decide) (by decide)

/-- **C5**: when appending a newly matched delimited path would reach or
exceed the output buffer capacity, the loop ends early: the session
terminates, the return code is the success value 0, no error text is added,
and the already-gathered entries are kept (the list is just normalized). -/
theorem claim_C5 (cfg : Config) (error0 : List Char) (pre rest : List IterInput)
    (s : TracerState) (status addr : Nat) (ev : EntryEvent) (dest : List Char)
    (hpre : tracer_loop cfg (initState error0) 0 pre = (s, false))
    (hodd : pre.length % 2 = 1)
    (hex : WIFEXITED status = false)
    (haddr : syscall_path_addr ev.regs = some addr)
    (hdest : (pgoptionfiles_copy_from_tracee cfg.pathMax ev.peek addr).1 = dest)
    (hlen : dest ≠ [])
    (herr : strncmpEq dest errorMarker errorMarker.length = false)
    (hmatch : substr myCnf (cfg.delimiter :: dest) = true)
    (hdup : substr (entryOf cfg.delimiter dest) s.file_names_list = false)
    (hcap : cfg.maxListSize ≤ s.file_names_list.length + (dest.length + 2)) :
    (pgoptionfiles_tracer cfg error0 (pre ++ ⟨true, .wait status ev⟩ :: rest)).2 = true
  ∧ (pgoptionfiles_tracer cfg error0 (pre ++ ⟨true, .wait status ev⟩ :: rest)).1.retcode = 0
  ∧ (pgoptionfiles_tracer cfg error0 (pre ++ ⟨true, .wait status ev⟩ :: rest)).1.error_list
      = error0
  ∧ (pgoptionfiles_tracer cfg error0 (pre ++ ⟨true, .wait status ev⟩ :: rest)).1.file_names_list
      = normalize_delims cfg.delimiter s.file_names_list
  ∧ (pgoptionfiles_tracer cfg error0 (pre ++ ⟨true, .wait status ev⟩ :: rest)).1.appended
      = s.appended := by
  have hpres := tracer_loop_no_break cfg pre (initState error0) 0 s hpre
  have hstep : tracer_entry_step cfg { s with status := status } ev
      = (stepMatchedState cfg { s with status := status } ev dest, true) :=
    tracer_entry_step_cap haddr hdest hlen herr hmatch hdup hcap
  have hiter := @tracer_iter_entry_brk cfg s (0 + pre.length) true status ev _
    (by simp) hex (by omega) hstep
  obtain ⟨hf, ha, hm, he, hrc, hst⟩ :=
    stepMatchedState_fields cfg { s with status := status } ev dest
  unfold pgoptionfiles_tracer
  rw [tracer_loop_append cfg pre (⟨true, .wait status ev⟩ :: rest) (initState error0) s 0 hpre,
    tracer_loop_cons_eq, hiter]
  dsimp only
  refine ⟨rfl, ?_, ?_, ?_, ?_⟩
  · rw [hrc]
    exact hpres.1
  · rw [he]
    exact hpres.2
  · rw [hf]
  · exact ha

/-- Witness for C5: with an 8-byte output buffer, the first matched "my.cnf"
(needing 8 bytes with its delimiters) already trips the capacity check; the
session ends with code 0 and no error text. -/
theorem claim_C5_witness :
    (pgoptionfiles_tracer cfgSmall [] (preW ++ [⟨true, .wait 1407 evMyCnf⟩])).2 = true
  ∧ (pgoptionfiles_tracer cfgSmall [] (preW ++ [⟨true, .wait 1407 evMyCnf⟩])).1.retcode = 0
  ∧ (pgoptionfiles_tracer cfgSmall [] (preW ++ [⟨true, .wait 1407 evMyCnf⟩])).1.error_list
      = [] := by
  have h := claim_C5 cfgSmall [] preW [] sW 1407 1000 evMyCnf "my.cnf".toList (by decide)
    (by decide) (by decide) rfl (by decide) (by decide) (by decide) (by decide) (by decide)
    (by decide)
  exact ⟨h.1, h.2.1, h.2.2.1⟩

/-- **C7**: if the first observed stop of the subordinate is not a SIGSTOP
stop (and not an exit), the controller kills the subordinate with SIGKILL,
appends the protocol-violation message carrying the raw wait status in hex,
and returns the distinct nonzero failure code -3, ignoring all further
observations. -/
theorem claim_C7 (cfg : Config) (error0 : List Char) (ro : Bool) (status : Nat)
    (ev : EntryEvent) (rest : List IterInput)
    (hex : WIFEXITED status = false)
    (hbad : ¬(WIFSTOPPED status ∧ WSTOPSIG status = SIGSTOP)) :
    (pgoptionfiles_tracer cfg error0 (⟨ro, .wait status ev⟩ :: rest)
      = ({ initState error0 with
           status := status, kills := [SIGKILL],
           error_list := error0 ++ waitStatusMsg status,
           retcode := -3 }, true))
  ∧ (-3 : Int) ≠ 0 := by
  refine ⟨?_, by decide⟩
  have hiter := @tracer_iter_init_bad cfg (initState error0) ro status ev hex hbad
  unfold pgoptionfiles_tracer
  rw [tracer_loop_cons_eq, hiter]
  rfl

/-- Witness for C7: a SIGTRAP stop (`status = 0x57f`) as the first
observation yields the protocol error. -/
theorem claim_C7_witness :
    pgoptionfiles_tracer cfgW [] [⟨true, .wait 1407 evDummy⟩]
      = ({ initState [] with
           status := 1407, kills := [SIGKILL],
           error_list := [] ++ waitStatusMsg 1407,
           retcode := -3 }, true) :=
  (claim_C7 cfgW [] true 1407 evDummy [] (by decide) (by decide)).1

end Pgoptionfiles
